import Mathlib

/-!
Shallow embedding of the dataflow evaluation and caching engine of the
Prototype-datapipe-editor repository (src/app/feed/feedgenerator.ts and the
data model it uses from src/app/nodes/nodes.tsx).

JavaScript arrays are mutable reference values, and `loadCache` stores and
passes them by reference, so the embedding models an explicit array heap
(`Store`) and represents a Bundle flowing along edges as a map from port id
to an array reference (`BundleR`).  JavaScript objects used as string maps
are modelled as association lists (`getProp` / `setProp`, first key wins,
assignment replaces in place or appends a fresh key at the end, matching
property insertion order).  The unguarded recursion of `loadCache` is given
an explicit fuel; exhausting the fuel (`spin`) models non-termination on
cyclic graphs.  Two ghost fields instrument the state: `calls` records each
invocation of a node's mapper (transform) function, and `log` records the
`console.log` call in the catch block of the `PipeState.Ok` case.
-/

namespace Datapipe

/-- Array references into the heap of string arrays. -/
abbrev Ref := Nat

/-- Value-level bundle: port id to ordered sequence of strings
(`{ [key: string]: string[] }` with the arrays dereferenced). -/
abbrev Bundle := List (String × List String)

/-- Property read on a JavaScript object modelled as an association list;
`none` models `undefined`. -/
def getProp {α : Type} : List (String × α) → String → Option α
  | [], _ => none
  | (k, v) :: rest, key => if key = k then some v else getProp rest key

/-- Property assignment on a JavaScript object: replaces the value of an
existing key in place, otherwise appends the new key at the end. -/
def setProp {α : Type} : List (String × α) → String → α → List (String × α)
  | [], key, v => [(key, v)]
  | (k, w) :: rest, key, v =>
      if key = k then (k, v) :: rest else (k, w) :: setProp rest key v

/-- Heap of string arrays; a `Ref` indexes into `arrays`. -/
structure Store where
  arrays : List (List String)
deriving DecidableEq

/-- Read the array behind a reference. -/
def Store.get (s : Store) (r : Ref) : List String := s.arrays.getD r []

/-- Allocate a fresh array, returning its reference. -/
def Store.alloc (s : Store) (vs : List String) : Ref × Store :=
  (s.arrays.length, ⟨s.arrays ++ [vs]⟩)

/-- In-place `array.push(...vs)` on the array behind reference `r`. -/
def Store.push (s : Store) (r : Ref) (vs : List String) : Store :=
  ⟨s.arrays.set r (s.arrays.getD r [] ++ vs)⟩

/-- Reference-level bundle: the JavaScript object mapping port ids to array
references, as stored in cache entries and `inputData`. -/
abbrev BundleR := List (String × Ref)

/-- Dereference every port's array of a reference-level bundle. -/
def derefBundle (s : Store) (b : BundleR) : Bundle :=
  b.map (fun kv => (kv.1, s.get kv.2))

/-- Allocate fresh arrays for every port of a value-level bundle (used for
the bundle returned by a mapper invocation). -/
def allocBundle (s : Store) : Bundle → BundleR × Store
  | [] => ([], s)
  | (k, vs) :: rest =>
      let rs := s.alloc vs
      let restR := allocBundle rs.2 rest
      ((k, rs.1) :: restR.1, restR.2)

/-- The `PipeState` enum from src/app/feed/pipe.ts. -/
inductive PipeState
  | Ok
  | BadConfig
  | Err
deriving DecidableEq

/-- The `PipeMessage<T>` union type from src/app/feed/pipe.ts
(`OkMessage<T> | BadConfigMessage | ErrMessage`). -/
inductive PipeMessage (T : Type)
  | okMessage (fromNode : String) (value : T)
  | badConfigMessage (fromNode : String)
  | errMessage (fromNode : String) (error : String)

/-- The `fromNode` field common to all three message shapes. -/
def PipeMessage.fromNode {T : Type} : PipeMessage T → String
  | .okMessage f _ => f
  | .badConfigMessage f => f
  | .errMessage f _ => f

/-- The `kind` discriminant of a `PipeMessage`. -/
def PipeMessage.kind {T : Type} : PipeMessage T → PipeState
  | .okMessage _ _ => .Ok
  | .badConfigMessage _ => .BadConfig
  | .errMessage _ _ => .Err

/-- `mapMessage` from src/app/feed/pipe.ts: maps the value of an `Ok`
message, returns `BadConfig` and `Err` messages as-is. -/
def mapMessage {T U : Type} (message : PipeMessage T) (map : T → U) : PipeMessage U :=
  match message with
  | .okMessage fromNode value => .okMessage fromNode (map value)
  | .badConfigMessage fromNode => .badConfigMessage fromNode
  | .errMessage fromNode error => .errMessage fromNode error

/-- The `PipeMapper` function type, at value level.  A JavaScript function
may throw; `Except.error msg` models an invocation that raises a fault whose
message is `msg`. -/
abbrev PipeMapper := Bundle → Except String Bundle

/-- The `PipeValue` union type from src/app/feed/pipe.ts
(`OkPipe | BadConfigPipe | ErrPipe`). -/
inductive PipeValue
  | ok (mapper : PipeMapper)
  | badConfig
  | err (error : String)

/-- `HandleInfo` from src/app/nodes/nodes.tsx: a declared port.  The
optional `optional?: boolean` field defaults to `false` (absent and `false`
behave identically in every truthiness test). -/
structure HandleInfo where
  id : String
  label : String
  group : Option String := none
  optional : Bool := false
deriving DecidableEq

/-- `Handles` from src/app/nodes/nodes.tsx: declared output (`source`) and
input (`target`) ports of a node. -/
structure Handles where
  source : List HandleInfo
  target : List HandleInfo
deriving DecidableEq

/-- The `data` payload of a ReactFlow node (`NodeProperties` without the
`onPipeUpdate` callback, which the engine never reads). -/
structure NodeData where
  pipeValue : PipeValue
  handles : Handles

/-- A ReactFlow edge, restricted to the four fields `loadCache` and
`onConnect` read. -/
structure Edge where
  source : String
  sourceHandle : String
  target : String
  targetHandle : String
deriving DecidableEq

/-- The graph state read by `loadCache`: the `nodes` React state object
(insertion-ordered string map) and the `edges` array. -/
structure Graph where
  nodes : List (String × NodeData)
  edges : List Edge

/-- `CacheEntry = OutputCacheEntry | ErrorCacheEntry` from the `Home`
component.  Bundles are stored at reference level, exactly as the code
stores the JavaScript objects. -/
inductive CacheEntry
  | output (input : BundleR) (output : BundleR)
  | error (input : BundleR) (error : String)
deriving DecidableEq

/-- Mutable evaluation state: the array heap, the `pipeCache.current` memo
table, and the two ghost traces (`calls`: nodes whose mapper was invoked;
`log`: messages passed to `console.log` in the catch block). -/
structure EvalState where
  store : Store
  pipeCache : List (String × CacheEntry)
  calls : List String
  log : List String
deriving DecidableEq

/-- Result of a `loadCache` call: normal return, a propagating JavaScript
`TypeError` (reading `.data` of `undefined` for a node id absent from
`nodes`), or fuel exhaustion (non-termination). -/
inductive LoadResult
  | ok (entry : CacheEntry) (st : EvalState)
  | typeError (st : EvalState)
  | spin
deriving DecidableEq

/-- Result of the input-building edge loop. -/
inductive StepResult
  | ok (st : EvalState) (inputData : BundleR)
  | fault (st : EvalState)
  | spin
deriving DecidableEq

/-- The edge loop of `loadCache` building `inputData` for `nodeID`:
for every edge targeting `nodeID`, recursively load the source node, read
its output at the source handle (`undefined` for error entries and absent
ports), and either store the array reference itself into `inputData`
(first edge for a target handle — this aliases the upstream array) or
`push` the values onto the array already referenced there. -/
def buildInput (load : EvalState → String → LoadResult) :
    List Edge → String → EvalState → BundleR → StepResult
  | [], _, st, inputData => .ok st inputData
  | edge :: rest, nodeID, st, inputData =>
    if edge.target = nodeID then
      match load st edge.source with
      | .spin => .spin
      | .typeError st1 => .fault st1
      | .ok entry st1 =>
        let handleInput : Option Ref :=
          match entry with
          | .output _ out => getProp out edge.sourceHandle
          | .error _ _ => none
        match handleInput with
        | none => buildInput load rest nodeID st1 inputData
        | some r =>
          match getProp inputData edge.targetHandle with
          | some r0 =>
              buildInput load rest nodeID
                { st1 with store := st1.store.push r0 (st1.store.get r) } inputData
          | none =>
              buildInput load rest nodeID st1 (setProp inputData edge.targetHandle r)
    else
      buildInput load rest nodeID st inputData

/-- The per-handle test of the missing-input loop:
`inputData[handle.id] == undefined || inputData[handle.id].length == 0`. -/
def inputMissingAt (s : Store) (inputData : BundleR) (handle : HandleInfo) : Bool :=
  match getProp inputData handle.id with
  | none => true
  | some r => (s.get r).isEmpty

/-- The missing-input loop over the declared input handles: true when some
non-optional handle has an absent or empty `inputData` entry. -/
def missingInput (s : Store) (inputHandles : List HandleInfo) (inputData : BundleR) : Bool :=
  inputHandles.any (fun handle => (!handle.optional) && inputMissingAt s inputData handle)

/-- The `switch (pipeValue.kind)` statement of `loadCache` computing the
cache entry for a node from its built `inputData`.  In the `Ok` case the
ghost `calls` trace records the mapper invocation, and the catch block
appends the fault's message to the ghost `log` trace. -/
def evalNode (nodeID : String) (node : NodeData) (inputData : BundleR) (st : EvalState) :
    CacheEntry × EvalState :=
  match node.pipeValue with
  | .badConfig => (.error inputData "Node configuration is invalid", st)
  | .err e => (.error inputData e, st)
  | .ok mapper =>
    if missingInput st.store node.handles.target inputData then
      (.error inputData "Missing input", st)
    else
      let st1 := { st with calls := st.calls ++ [nodeID] }
      match mapper (derefBundle st.store inputData) with
      | .error e =>
          (.error inputData "Error in node implementation",
           { st1 with log := st1.log ++ [e] })
      | .ok outputData =>
        match node.handles.source.find? (fun handle => (getProp outputData handle.id).isNone) with
        | some handle =>
            (.error inputData "Error in node implementation",
             { st1 with log := st1.log ++
                 ["Missing output data for node " ++ nodeID ++ " handle " ++ handle.id] })
        | none =>
            let outR := allocBundle st1.store outputData
            (.output inputData outR.1, { st1 with store := outR.2 })

/-- `loadCache` from the `Home` component, with explicit fuel: return the
memoized entry if present; otherwise look the node up (a node id absent
from `nodes` raises a `TypeError`), build `inputData` from the edges,
dispatch on the node's pipe value, store the result in the memo table and
return it. -/
def loadCache (g : Graph) : Nat → EvalState → String → LoadResult
  | 0, _, _ => .spin
  | fuel + 1, st, nodeID =>
    match getProp st.pipeCache nodeID with
    | some entry => .ok entry st
    | none =>
      match getProp g.nodes nodeID with
      | none => .typeError st
      | some node =>
        match buildInput (loadCache g fuel) g.edges nodeID st [] with
        | .spin => .spin
        | .fault st1 => .typeError st1
        | .ok st1 inputData =>
          let res := evalNode nodeID node inputData st1
          .ok res.1 { res.2 with pipeCache := setProp res.2.pipeCache nodeID res.1 }

/-- Result of the cache recompute block in `Home`. -/
inductive RecomputeResult
  | ok (st : EvalState)
  | fault (st : EvalState)
  | spin
deriving DecidableEq

/-- The `for (let nodeID in nodes) loadCache(nodeID)` loop of the recompute
block. -/
def recomputeLoop (g : Graph) (fuel : Nat) : List String → EvalState → RecomputeResult
  | [], st => .ok st
  | nodeID :: rest, st =>
    match loadCache g fuel st nodeID with
    | .spin => .spin
    | .typeError st1 => .fault st1
    | .ok _ st1 => recomputeLoop g fuel rest st1

/-- The evaluation state right after `pipeCache.current = {}`. -/
def initialEvalState : EvalState := ⟨⟨[]⟩, [], [], []⟩

/-- The whole recompute block guarded by `!pipeCacheValid.current`: discard
the memo table, then resolve every currently-known node id in insertion
order.  The cache validity flag is set true exactly when this completes
normally (`RecomputeResult.ok`). -/
def recomputeAll (g : Graph) (fuel : Nat) : RecomputeResult :=
  recomputeLoop g fuel (g.nodes.map Prod.fst) initialEvalState

/-- The duplicate test of `onConnect`: an existing edge with the same
source node, target node, source handle and target handle. -/
def isDuplicateEdge (edges : List Edge) (newEdge : Edge) : Bool :=
  edges.any (fun edge =>
    edge.source == newEdge.source && edge.target == newEdge.target
      && edge.sourceHandle == newEdge.sourceHandle && edge.targetHandle == newEdge.targetHandle)

/-- ReactFlow's `addEdge` helper (external library): appends the new edge to
the edge array. -/
def addEdge (newEdge : Edge) (edges : List Edge) : List Edge := edges ++ [newEdge]

/-- `onConnect` from the `Home` component, acting on the edge list and the
cache validity flag: drop self-edges before touching anything, drop exact
duplicates from within the updater (also before invalidating), otherwise
invalidate the cache and add the edge. -/
def onConnect (newEdge : Edge) (edges : List Edge) (cacheValid : Bool) : List Edge × Bool :=
  if newEdge.source = newEdge.target then
    (edges, cacheValid)
  else if isDuplicateEdge edges newEdge then
    (edges, cacheValid)
  else
    (addEdge newEdge edges, false)

/-- Fuel-bounded upstream reachability along edges: `reachesB g fuel m p`
holds when `p` is `m` itself or can be reached from `m` by walking at most
`fuel` edges backwards (from a node to the sources of its inbound edges).
This is the traversal order of the recursive `loadCache` calls. -/
def reachesB (g : Graph) : Nat → String → String → Bool
  | 0, _, _ => false
  | fuel + 1, m, p =>
    m == p || g.edges.any (fun e => e.target == m && reachesB g fuel e.source p)

/-! Basic lemmas about the object-as-association-list operations. -/

lemma getProp_eq_none_iff {α : Type} (l : List (String × α)) (k : String) :
    getProp l k = none ↔ k ∉ l.map Prod.fst := by
  induction l with
  | nil => simp [getProp]
  | cons kv rest ih =>
    obtain ⟨k', v'⟩ := kv
    by_cases hk : k = k' <;> simp [getProp, hk, ih]

lemma getProp_setProp_self {α : Type} (l : List (String × α)) (k : String) (v : α) :
    getProp (setProp l k v) k = some v := by
  induction l with
  | nil => simp [setProp, getProp]
  | cons kv rest ih =>
    obtain ⟨k', w⟩ := kv
    by_cases hk : k = k' <;> simp [setProp, getProp, hk, ih]

lemma getProp_setProp_ne {α : Type} (l : List (String × α)) (k m : String) (v : α)
    (hne : m ≠ k) : getProp (setProp l k v) m = getProp l m := by
  induction l with
  | nil => simp [setProp, getProp, hne]
  | cons kv rest ih =>
    obtain ⟨k', w⟩ := kv
    by_cases h1 : k = k'
    · subst h1
      simp [setProp, getProp, hne]
    · by_cases h2 : m = k' <;> simp [setProp, getProp, h1, h2, ih]

lemma keys_setProp_of_mem {α : Type} (l : List (String × α)) (k : String) (v : α)
    (h : k ∈ l.map Prod.fst) : (setProp l k v).map Prod.fst = l.map Prod.fst := by
  induction l with
  | nil => simp at h
  | cons kv rest ih =>
    obtain ⟨k', w⟩ := kv
    by_cases hk : k = k'
    · simp [setProp, hk]
    · simp only [List.map_cons, List.mem_cons] at h
      rcases h with h | h

      · exact absurd h hk
      · simp [setProp, hk, ih h]

lemma keys_setProp_of_not_mem {α : Type} (l : List (String × α)) (k : String) (v : α)
    (h : k ∉ l.map Prod.fst) :
    (setProp l k v).map Prod.fst = l.map Prod.fst ++ [k] := by
  induction l with
  | nil => simp [setProp]
  | cons kv rest ih =>
    obtain ⟨k', w⟩ := kv
    simp only [List.map_cons, List.mem_cons] at h
    push_neg at h
    simp [setProp, h.1, ih h.2]

/-! Lemmas about fuel-bounded upstream reachability. -/

lemma reachesB_refl (g : Graph) (fuel : Nat) (m : String) :
    reachesB g (fuel + 1) m m = true := by
  simp [reachesB]

lemma reachesB_step (g : Graph) (fuel : Nat) (e : Edge) (m p : String)
    (he : e ∈ g.edges) (htgt : e.target = m) (h : reachesB g fuel e.source p = true) :
    reachesB g (fuel + 1) m p = true := by
  simp only [reachesB, Bool.or_eq_true, List.any_eq_true]
  exact Or.inr ⟨e, he, by simp [htgt, h]⟩

lemma reachesB_mono (g : Graph) : ∀ (fuel N : Nat) (m p : String), fuel ≤ N →
    reachesB g fuel m p = true → reachesB g N m p = true := by
  intro fuel
  induction fuel with
  | zero =>
    intro N m p _ h
    simp [reachesB] at h
  | succ f ih =>
    intro N m p hle h
    obtain ⟨N', rfl⟩ : ∃ N', N = N' + 1 := ⟨N - 1, by omega⟩
    simp only [reachesB, Bool.or_eq_true, List.any_eq_true, Bool.and_eq_true] at h ⊢
    rcases h with h | ⟨e, he, h1, h2⟩
    · exact Or.inl h
    · exact Or.inr ⟨e, he, h1, ih N' e.source p (by omega) h2⟩

/-! Invariants of the evaluation state threaded through `loadCache`. -/

/-- Acyclicity of the edge set expressed with the bounded reachability test:
no edge closes an upstream path of length at most `N` back to itself. -/
def NoCyc (g : Graph) (N : Nat) : Prop :=
  ∀ e ∈ g.edges, reachesB g N e.source e.target = false

/-- Memo-table shape invariant: the memo table has no duplicate node ids and
only holds entries for nodes present in the graph. -/
def PInv (g : Graph) (st : EvalState) : Prop :=
  (st.pipeCache.map Prod.fst).Nodup ∧
  ∀ k ∈ st.pipeCache.map Prod.fst, getProp g.nodes k ≠ none

/-- Call-count invariant: a node's mapper has been invoked at most once, and
only if the node already has a memo entry. -/
def KInv (st : EvalState) : Prop :=
  ∀ m, st.calls.count m ≤ if getProp st.pipeCache m = none then 0 else 1

/-- Specification of one fuelled `loadCache`-like call, as needed by the
claims: a normal return leaves the requested node memoized with exactly the
returned entry, preserves all pre-existing memo bindings, only memoizes
nodes upstream-reachable from the requested one, and preserves the shape
and call-count invariants. -/
def LoadSpec (g : Graph) (fuel : Nat) (load : EvalState → String → LoadResult) : Prop :=
  ∀ st n e st', load st n = .ok e st' →
    getProp st'.pipeCache n = some e ∧
    (∀ m, getProp st.pipeCache m ≠ none → getProp st'.pipeCache m = getProp st.pipeCache m) ∧
    (∀ m, getProp st.pipeCache m = none → getProp st'.pipeCache m ≠ none →
      reachesB g fuel n m = true) ∧
    (PInv g st → PInv g st') ∧
    (∀ N, fuel ≤ N → NoCyc g N → KInv st → KInv st')

lemma buildInput_spec (g : Graph) (fuel : Nat) (load : EvalState → String → LoadResult)
    (hload : LoadSpec g fuel load) :
    ∀ (edges : List Edge) (nodeID : String) (st : EvalState) (acc : BundleR)
      (st1 : EvalState) (acc1 : BundleR),
      buildInput load edges nodeID st acc = .ok st1 acc1 →
      (∀ m, getProp st.pipeCache m ≠ none → getProp st1.pipeCache m = getProp st.pipeCache m) ∧
      (∀ m, getProp st.pipeCache m = none → getProp st1.pipeCache m ≠ none →
        ∃ e ∈ edges, e.target = nodeID ∧ reachesB g fuel e.source m = true) ∧
      (PInv g st → PInv g st1) ∧
      (∀ N, fuel ≤ N → NoCyc g N → KInv st → KInv st1) := by
  intro edges
  induction edges with
  | nil =>
    intro nodeID st acc st1 acc1 h
    simp only [buildInput, StepResult.ok.injEq] at h
    obtain ⟨rfl, rfl⟩ := h
    exact ⟨fun m _ => rfl, fun m h1 h2 => absurd h1 h2, id, fun N _ _ hK => hK⟩
  | cons edge rest ih =>
    intro nodeID st acc st1 acc1 h
    rw [buildInput] at h
    by_cases htgt : edge.target = nodeID
    case neg =>
      rw [if_neg htgt] at h
      obtain ⟨i1, i2, i3, i4⟩ := ih nodeID st acc st1 acc1 h
      refine ⟨i1, fun m h1 h2 => ?_, i3, i4⟩
      obtain ⟨e, he, h3, h4⟩ := i2 m h1 h2
      exact ⟨e, List.mem_cons_of_mem _ he, h3, h4⟩
    case pos =>
      rw [if_pos htgt] at h
      cases hl : load st edge.source with
      | spin =>
        rw [hl] at h
        exact absurd (show StepResult.spin = StepResult.ok st1 acc1 from h) (by simp)
      | typeError stE =>
        rw [hl] at h
        exact absurd (show StepResult.fault stE = StepResult.ok st1 acc1 from h) (by simp)
      | ok entry stA =>
        rw [hl] at h
        obtain ⟨-, hs2, hs3, hs4, hs5⟩ := hload st edge.source entry stA hl
        have main : ∀ (st' : EvalState) (acc' : BundleR),
            st'.pipeCache = stA.pipeCache → st'.calls = stA.calls →
            buildInput load rest nodeID st' acc' = .ok st1 acc1 →
            (∀ m, getProp st.pipeCache m ≠ none →
              getProp st1.pipeCache m = getProp st.pipeCache m) ∧
            (∀ m, getProp st.pipeCache m = none → getProp st1.pipeCache m ≠ none →
              ∃ e ∈ edge :: rest, e.target = nodeID ∧ reachesB g fuel e.source m = true) ∧
            (PInv g st → PInv g st1) ∧
            (∀ N, fuel ≤ N → NoCyc g N → KInv st → KInv st1) := by
          intro st' acc' hpc hcalls hrest
          obtain ⟨i1, i2, i3, i4⟩ := ih nodeID st' acc' st1 acc1 hrest
          refine ⟨fun m hm => ?_, fun m h1 h2 => ?_, fun hP => ?_, fun N hN hNC hK => ?_⟩
          · have hA : getProp st'.pipeCache m = getProp st.pipeCache m := by
              rw [hpc]; exact hs2 m hm
            have hB : getProp st1.pipeCache m = getProp st'.pipeCache m := by
              apply i1; rw [hA]; exact hm
            rw [hB, hA]
          · by_cases hA : getProp stA.pipeCache m = none
            · have h1' : getProp st'.pipeCache m = none := by rw [hpc]; exact hA
              obtain ⟨e, he, h3, h4⟩ := i2 m h1' h2
              exact ⟨e, List.mem_cons_of_mem _ he, h3, h4⟩
            · exact ⟨edge, List.mem_cons_self _ _, htgt, hs3 m h1 hA⟩
          · refine i3 ?_
            obtain ⟨p1, p2⟩ := hs4 hP
            exact ⟨by rw [hpc]; exact p1, by rw [hpc]; exact p2⟩
          · refine i4 N hN hNC ?_
            intro m
            rw [hcalls, hpc]
            exact hs5 N hN hNC hK m
        cases entry with
        | error inb err =>
          exact main stA acc rfl rfl h
        | output inb outb =>
          have h' : (match getProp outb edge.sourceHandle with
              | none => buildInput load rest nodeID stA acc
              | some r =>
                match getProp acc edge.targetHandle with
                | some r0 => buildInput load rest nodeID
                    { stA with store := stA.store.push r0 (stA.store.get r) } acc
                | none => buildInput load rest nodeID stA (setProp acc edge.targetHandle r))
              = StepResult.ok st1 acc1 := h
          clear h
          cases hgp : getProp outb edge.sourceHandle with
          | none =>
            rw [hgp] at h'
            exact main stA acc rfl rfl h'
          | some r =>
            rw [hgp] at h'
            cases hacc : getProp acc edge.targetHandle with
            | some r0 =>
              rw [hacc] at h'
              exact main { stA with store := stA.store.push r0 (stA.store.get r) } acc rfl rfl h'
            | none =>
              rw [hacc] at h'
              exact main stA (setProp acc edge.targetHandle r) rfl rfl h'

/-- The dispatch on a node's pipe value never touches the memo table, and
either leaves the call trace unchanged or records exactly one invocation of
this node's mapper. -/
lemma evalNode_cases (nodeID : String) (node : NodeData) (inputData : BundleR) (st : EvalState) :
    (evalNode nodeID node inputData st).2.pipeCache = st.pipeCache ∧
    ((evalNode nodeID node inputData st).2.calls = st.calls ∨
     (evalNode nodeID node inputData st).2.calls = st.calls ++ [nodeID]) := by
  obtain ⟨pv, hnds⟩ := node
  cases pv with
  | badConfig => exact ⟨rfl, Or.inl rfl⟩
  | err e => exact ⟨rfl, Or.inl rfl⟩
  | ok mapper =>
    simp only [evalNode]
    by_cases hmi : missingInput st.store hnds.target inputData = true
    · simp [hmi]
    · rw [if_neg hmi]
      cases hr : mapper (derefBundle st.store inputData) with
      | error e => simp [hr]
      | ok outputData =>
        cases hf : hnds.source.find? (fun handle => (getProp outputData handle.id).isNone) with
        | some handle => simp [hr, hf]
        | none => simp [hr, hf]

lemma count_le_bound_nocall (cache : List (String × CacheEntry)) (calls : List String)
    (nodeID : String) (e : CacheEntry)
    (hK : ∀ m, calls.count m ≤ if getProp cache m = none then 0 else 1) :
    ∀ m, calls.count m ≤ if getProp (setProp cache nodeID e) m = none then 0 else 1 := by
  intro m
  by_cases hm : m = nodeID
  · subst hm
    rw [getProp_setProp_self, if_neg (by simp)]
    have h2 := hK m
    by_cases hh : getProp cache m = none
    · rw [if_pos hh] at h2; omega
    · rw [if_neg hh] at h2; omega
  · rw [getProp_setProp_ne _ _ _ _ hm]
    exact hK m

lemma count_le_bound_call (cache : List (String × CacheEntry)) (calls : List String)
    (nodeID : String) (e : CacheEntry)
    (hfree : getProp cache nodeID = none)
    (hK : ∀ m, calls.count m ≤ if getProp cache m = none then 0 else 1) :
    ∀ m, (calls ++ [nodeID]).count m ≤
      if getProp (setProp cache nodeID e) m = none then 0 else 1 := by
  intro m
  rw [List.count_append]
  by_cases hm : m = nodeID
  · subst hm
    have h2 := hK m
    rw [if_pos hfree] at h2
    rw [getProp_setProp_self, if_neg (by simp)]
    simp only [List.count_cons, List.count_nil, beq_self_eq_true, if_true]
    omega
  · have hne : (nodeID == m) = false := beq_eq_false_iff_ne.mpr (fun h => hm h.symm)
    have hz : ([nodeID] : List String).count m = 0 := by
      simp [List.count_cons, hne]
    rw [hz, getProp_setProp_ne _ _ _ _ hm]
    simpa using hK m

lemma PInv_setProp (g : Graph) (st : EvalState) (n : String) (e : CacheEntry)
    (hP : PInv g st) (hn : getProp g.nodes n ≠ none) :
    PInv g { st with pipeCache := setProp st.pipeCache n e } := by
  obtain ⟨h1, h2⟩ := hP
  by_cases hmem : n ∈ st.pipeCache.map Prod.fst
  · exact ⟨by rw [show ({ st with pipeCache := setProp st.pipeCache n e } : EvalState).pipeCache
        = setProp st.pipeCache n e from rfl, keys_setProp_of_mem _ _ _ hmem]; exact h1,
      by rw [show ({ st with pipeCache := setProp st.pipeCache n e } : EvalState).pipeCache
        = setProp st.pipeCache n e from rfl, keys_setProp_of_mem _ _ _ hmem]; exact h2⟩
  · constructor
    · show ((setProp st.pipeCache n e).map Prod.fst).Nodup
      rw [keys_setProp_of_not_mem _ _ _ hmem]
      simp [List.nodup_append, h1, hmem]
    · show ∀ k ∈ (setProp st.pipeCache n e).map Prod.fst, getProp g.nodes k ≠ none
      rw [keys_setProp_of_not_mem _ _ _ hmem]
      intro k hk
      rcases List.mem_append.mp hk with hk | hk
      · exact h2 k hk
      · simp only [List.mem_singleton] at hk
        subst hk
        exact hn

/-- Main specification of the fuelled `loadCache`: every terminating call
satisfies `LoadSpec`. -/
theorem loadCache_spec (g : Graph) : ∀ fuel, LoadSpec g fuel (loadCache g fuel) := by
  intro fuel
  induction fuel with
  | zero =>
    intro st n e st' h
    simp [loadCache] at h
  | succ fuel ih =>
    intro st n e st' h
    rw [loadCache] at h
    cases hmemo : getProp st.pipeCache n with
    | some entry =>
      rw [hmemo] at h
      injection h with h1 h2
      subst h1
      subst h2
      exact ⟨hmemo, fun m _ => rfl, fun m h1 h2 => absurd h1 h2, id, fun N _ _ hK => hK⟩
    | none =>
      rw [hmemo] at h
      cases hnode : getProp g.nodes n with
      | none => rw [hnode] at h; simp at h
      | some node =>
        rw [hnode] at h
        cases hb : buildInput (loadCache g fuel) g.edges n st [] with
        | spin => rw [hb] at h; simp at h
        | fault stF => rw [hb] at h; simp at h
        | ok st1 inputData =>
          rw [hb] at h
          obtain ⟨hb1, hb2, hb3, hb4⟩ :=
            buildInput_spec g fuel (loadCache g fuel) ih g.edges n st [] st1 inputData hb
          obtain ⟨hpc, hcalls⟩ := evalNode_cases n node inputData st1
          injection h with h1 h2
          subst h1
          subst h2
          refine ⟨?_, fun m hm => ?_, fun m h1 h2 => ?_, fun hP => ?_, fun N hN hNC hK => ?_⟩
          · show getProp (setProp (evalNode n node inputData st1).2.pipeCache n
              (evalNode n node inputData st1).1) n = some (evalNode n node inputData st1).1
            exact getProp_setProp_self _ _ _
          · have hmn : m ≠ n := fun heq => by rw [heq, hmemo] at hm; exact hm rfl
            show getProp (setProp (evalNode n node inputData st1).2.pipeCache n
              (evalNode n node inputData st1).1) m = getProp st.pipeCache m
            rw [getProp_setProp_ne _ _ _ _ hmn, hpc]
            exact hb1 m hm
          · by_cases hmn : m = n
            · subst hmn
              exact reachesB_refl g fuel m
            · have h2' : getProp st1.pipeCache m ≠ none := by
                intro hc
                apply h2
                show getProp (setProp (evalNode n node inputData st1).2.pipeCache n
                  (evalNode n node inputData st1).1) m = none
                rw [getProp_setProp_ne _ _ _ _ hmn, hpc]
                exact hc
              obtain ⟨e', he', h3, h4⟩ := hb2 m h1 h2'
              rw [← h3]
              exact reachesB_step g fuel e' e'.target m he' rfl h4
          · have hP1 : PInv g st1 := hb3 hP
            have hP2 : PInv g { st1 with
                pipeCache := setProp st1.pipeCache n (evalNode n node inputData st1).1 } :=
              PInv_setProp g st1 n _ hP1 (by rw [hnode]; exact fun hc => by cases hc)
            constructor
            · show ((setProp (evalNode n node inputData st1).2.pipeCache n
                (evalNode n node inputData st1).1).map Prod.fst).Nodup
              rw [hpc]
              exact hP2.1
            · show ∀ k ∈ (setProp (evalNode n node inputData st1).2.pipeCache n
                (evalNode n node inputData st1).1).map Prod.fst, getProp g.nodes k ≠ none
              rw [hpc]
              exact hP2.2
          · have hK1 : KInv st1 := hb4 N (by omega) hNC hK
            have hfree : getProp st1.pipeCache n = none := by
              by_contra hne
              obtain ⟨e', he', h3, h4⟩ := hb2 n hmemo hne
              have hreach := reachesB_mono g fuel N e'.source n (by omega) h4
              have hfalse := hNC e' he'
              rw [h3] at hfalse
              rw [hfalse] at hreach
              cases hreach
            intro m
            show (evalNode n node inputData st1).2.calls.count m ≤
              if getProp (setProp (evalNode n node inputData st1).2.pipeCache n
                (evalNode n node inputData st1).1) m = none then 0 else 1
            rw [hpc]
            rcases hcalls with hcalls | hcalls
            · rw [hcalls]
              exact count_le_bound_nocall st1.pipeCache st1.calls n _ hK1 m
            · rw [hcalls]
              exact count_le_bound_call st1.pipeCache st1.calls n _ hfree hK1 m

lemma recomputeLoop_spec (g : Graph) (fuel : Nat) :
    ∀ (ids : List String) (st st' : EvalState),
      recomputeLoop g fuel ids st = .ok st' →
      (∀ m, getProp st.pipeCache m ≠ none → getProp st'.pipeCache m = getProp st.pipeCache m) ∧
      (∀ id ∈ ids, getProp st'.pipeCache id ≠ none) ∧
      (PInv g st → PInv g st') ∧
      (∀ N, fuel ≤ N → NoCyc g N → KInv st → KInv st') := by
  intro ids
  induction ids with
  | nil =>
    intro st st' h
    simp only [recomputeLoop, RecomputeResult.ok.injEq] at h
    subst h
    exact ⟨fun m _ => rfl, by simp, id, fun N _ _ hK => hK⟩
  | cons id rest ih =>
    intro st st' h
    rw [recomputeLoop] at h
    cases hl : loadCache g fuel st id with
    | spin =>
      rw [hl] at h
      exact absurd (show RecomputeResult.spin = .ok st' from h) (by simp)
    | typeError stE =>
      rw [hl] at h
      exact absurd (show RecomputeResult.fault stE = .ok st' from h) (by simp)
    | ok e st1 =>
      rw [hl] at h
      have h' : recomputeLoop g fuel rest st1 = .ok st' := h
      obtain ⟨hs1, hs2, hs3, hs4, hs5⟩ := loadCache_spec g fuel st id e st1 hl
      obtain ⟨i1, i2, i3, i4⟩ := ih st1 st' h'
      refine ⟨fun m hm => ?_, fun m hmem => ?_, fun hP => i3 (hs4 hP),
        fun N hN hNC hK => i4 N hN hNC (hs5 N hN hNC hK)⟩
      · have hA := hs2 m hm
        have hB := i1 m (by rw [hA]; exact hm)
        rw [hB, hA]
      · rcases List.mem_cons.mp hmem with rfl | hmem
        · have hB : getProp st'.pipeCache m = getProp st1.pipeCache m :=
            i1 m (by rw [hs1]; exact fun hc => by cases hc)
          rw [hB, hs1]
          exact fun hc => by cases hc
        · exact i2 m hmem

/-- One unfolding of `loadCache` on a memo miss for an existing node, after
the input-building loop has produced `inputData`: the result is exactly the
dispatch on the node's pipe value, memoized under the node's id. -/
lemma loadCache_step (g : Graph) (fuel : Nat) (st : EvalState) (nodeID : String)
    (node : NodeData) (st1 : EvalState) (inputData : BundleR)
    (hmiss : getProp st.pipeCache nodeID = none)
    (hnode : getProp g.nodes nodeID = some node)
    (hb : buildInput (loadCache g fuel) g.edges nodeID st [] = .ok st1 inputData) :
    loadCache g (fuel + 1) st nodeID =
      .ok (evalNode nodeID node inputData st1).1
        { (evalNode nodeID node inputData st1).2 with
          pipeCache := setProp (evalNode nodeID node inputData st1).2.pipeCache nodeID
            (evalNode nodeID node inputData st1).1 } := by
  rw [loadCache, hmiss, hnode, hb]

/-- Test fixture: a two-node pipeline, a text source `A` feeding a
pass-through node `B` (shapes taken from `TextInputNode` and `RegexNode`). -/
def gW : Graph := {
  nodes := [
    ("A", { pipeValue := .ok (fun _ => .ok [("text-out", ["hello"])]),
            handles := { source := [{ id := "text-out", label := "Text" }], target := [] } }),
    ("B", { pipeValue := .ok (fun input => .ok [("data-out",
              match getProp input "data-in" with | some vs => vs | none => [])]),
            handles := { source := [{ id := "data-out", label := "OUT" }],
                         target := [{ id := "data-in", label := "IN" }] } })],
  edges := [{ source := "A", sourceHandle := "text-out", target := "B",
              targetHandle := "data-in" }]
}

/-- The state produced by a completed recompute (validity flag true). -/
def recomputedState (g : Graph) (fuel : Nat) : EvalState :=
  match recomputeAll g fuel with
  | .ok st => st
  | .fault st => st
  | .spin => initialEvalState

/-- The memoized entry of a node after a completed recompute. -/
def cachedEntry (g : Graph) (fuel : Nat) (n : String) : CacheEntry :=
  match getProp (recomputedState g fuel).pipeCache n with
  | some e => e
  | none => .error [] ""

/-- C1 — Memoization: with a valid memo table (a state produced by a
completed recompute of an acyclic graph), a `resolve(n)` call that returned
entry `e` leaves the state unchanged in a way that makes an immediately
following `resolve(n)` return the identical entry `e` from the identical
state, and the recompute invoked each node's transform function at most
once (the ghost `calls` trace counts every mapper invocation of the
invalidation cycle). -/
theorem memoization_resolve (g : Graph) (N fuel f1 f2 : Nat) (st st1 : EvalState)
    (n m : String) (e : CacheEntry)
    (hNC : NoCyc g N) (hfuel : fuel ≤ N)
    (hrec : recomputeAll g fuel = .ok st)
    (h1 : loadCache g f1 st n = .ok e st1) :
    loadCache g (f2 + 1) st1 n = .ok e st1 ∧ st.calls.count m ≤ 1 := by
  constructor
  · have hstored : getProp st1.pipeCache n = some e := (loadCache_spec g f1 st n e st1 h1).1
    rw [loadCache, hstored]
  · obtain ⟨-, -, -, l4⟩ :=
      recomputeLoop_spec g fuel (g.nodes.map Prod.fst) initialEvalState st hrec
    have hK : KInv st := l4 N hfuel hNC (fun p => by simp [initialEvalState])
    have hKm := hK m
    by_cases hh : getProp st.pipeCache m = none
    · rw [if_pos hh] at hKm; omega
    · rw [if_neg hh] at hKm; omega

/-- Witness for C1 on the concrete two-node pipeline. -/
theorem memoization_resolve_witness :
    loadCache gW (0 + 1) (recomputedState gW 2) "A" =
      .ok (cachedEntry gW 2 "A") (recomputedState gW 2) ∧
    (recomputedState gW 2).calls.count "A" ≤ 1 :=
  memoization_resolve gW 2 2 1 0 (recomputedState gW 2) (recomputedState gW 2) "A" "A"
    (cachedEntry gW 2 "A") (by unfold NoCyc; decide) (by decide) (by rfl) (by rfl)

/-- C6 — Memo table completeness: whenever the validity flag is true (the
recompute step completed normally), the memo table has no duplicate node
ids and holds an entry exactly for the nodes present in the graph. -/
theorem memo_table_completeness (g : Graph) (fuel : Nat) (st : EvalState)
    (hrec : recomputeAll g fuel = .ok st) :
    (st.pipeCache.map Prod.fst).Nodup ∧
    ∀ id, getProp st.pipeCache id ≠ none ↔ getProp g.nodes id ≠ none := by
  obtain ⟨l1, l2, l3, l4⟩ :=
    recomputeLoop_spec g fuel (g.nodes.map Prod.fst) initialEvalState st hrec
  have hP : PInv g st := l3 ⟨by simp [initialEvalState], by simp [initialEvalState]⟩
  refine ⟨hP.1, fun id => ⟨fun hmem => ?_, fun hnode => ?_⟩⟩
  · have hin : id ∈ st.pipeCache.map Prod.fst := by
      by_contra hc
      exact hmem ((getProp_eq_none_iff _ _).mpr hc)
    exact hP.2 id hin
  · have hin : id ∈ g.nodes.map Prod.fst := by
      by_contra hc
      exact hnode ((getProp_eq_none_iff _ _).mpr hc)
    exact l2 id hin

/-- Witness for C6 on the concrete two-node pipeline. -/
theorem memo_table_completeness_witness :
    ((recomputedState gW 2).pipeCache.map Prod.fst).Nodup ∧
    (getProp (recomputedState gW 2).pipeCache "B" ≠ none ↔ getProp gW.nodes "B" ≠ none) :=
  ⟨(memo_table_completeness gW 2 (recomputedState gW 2) (by rfl)).1,
   (memo_table_completeness gW 2 (recomputedState gW 2) (by rfl)).2 "B"⟩

/-- C2 — Missing required input: a `Ready` node with a non-optional
declared input port whose built input-bundle entry is absent or empty
resolves to `Errored` with error exactly "Missing input", and its transform
is not invoked (the final state's call trace is that of the input-building
loop, unchanged by the dispatch). -/
theorem missing_required_input (g : Graph) (fuel : Nat) (st st1 : EvalState)
    (nodeID : String) (node : NodeData) (mapper : PipeMapper) (inputData : BundleR)
    (handle : HandleInfo)
    (hmiss : getProp st.pipeCache nodeID = none)
    (hnode : getProp g.nodes nodeID = some node)
    (hready : node.pipeValue = .ok mapper)
    (hb : buildInput (loadCache g fuel) g.edges nodeID st [] = .ok st1 inputData)
    (hhandle : handle ∈ node.handles.target)
    (hreq : handle.optional = false)
    (habs : inputMissingAt st1.store inputData handle = true) :
    loadCache g (fuel + 1) st nodeID =
      .ok (.error inputData "Missing input")
        { st1 with pipeCache := setProp st1.pipeCache nodeID (.error inputData "Missing input") } ∧
    ({ st1 with
         pipeCache := setProp st1.pipeCache nodeID (.error inputData "Missing input") } :
       EvalState).calls = st1.calls := by
  have hM : missingInput st1.store node.handles.target inputData = true := by
    simp only [missingInput, List.any_eq_true]
    exact ⟨handle, hhandle, by simp [hreq, habs]⟩
  have hstep := loadCache_step g fuel st nodeID node st1 inputData hmiss hnode hb
  have hev : evalNode nodeID node inputData st1 = (.error inputData "Missing input", st1) := by
    simp [evalNode, hready, hM]
  exact ⟨hstep.trans (by rw [hev]), rfl⟩

/-- Test fixture for C2: one `Ready` node with a required input port and no
inbound edge. -/
def gC2 : Graph := {
  nodes := [("A", { pipeValue := .ok (fun _ => .ok [("data-out", [])]),
                    handles := { source := [{ id := "data-out", label := "OUT" }],
                                 target := [{ id := "data-in", label := "IN" }] } })],
  edges := []
}

/-- Witness for C2: the required port is unconnected, so resolving yields
the "Missing input" error without calling the transform. -/
theorem missing_required_input_witness :
    loadCache gC2 (0 + 1) initialEvalState "A" =
      .ok (.error [] "Missing input")
        { initialEvalState with
          pipeCache := setProp initialEvalState.pipeCache "A" (.error [] "Missing input") } ∧
    ({ initialEvalState with
         pipeCache := setProp initialEvalState.pipeCache "A" (.error [] "Missing input") } :
       EvalState).calls = initialEvalState.calls :=
  missing_required_input gC2 0 initialEvalState initialEvalState "A"
    { pipeValue := .ok (fun _ => .ok [("data-out", [])]),
      handles := { source := [{ id := "data-out", label := "OUT" }],
                   target := [{ id := "data-in", label := "IN" }] } }
    (fun _ => .ok [("data-out", [])]) [] { id := "data-in", label := "IN" }
    (by rfl) (by rfl) rfl (by rfl) (by simp) rfl (by rfl)

/-- C3 — Implementation fault: a `Ready` node whose required inputs are all
satisfied but whose transform raises a fault, or returns a bundle missing a
declared output port, resolves to `Errored` with error exactly the fixed
string "Error in node implementation" (never the underlying fault's
message), and the underlying fault message is appended to the diagnostic
log. -/
theorem implementation_fault (g : Graph) (fuel : Nat) (st st1 : EvalState)
    (nodeID : String) (node : NodeData) (mapper : PipeMapper) (inputData : BundleR)
    (hmiss : getProp st.pipeCache nodeID = none)
    (hnode : getProp g.nodes nodeID = some node)
    (hready : node.pipeValue = .ok mapper)
    (hb : buildInput (loadCache g fuel) g.edges nodeID st [] = .ok st1 inputData)
    (hsat : missingInput st1.store node.handles.target inputData = false)
    (hfault : (∃ msg, mapper (derefBundle st1.store inputData) = .error msg) ∨
      (∃ outputData, mapper (derefBundle st1.store inputData) = .ok outputData ∧
        node.handles.source.find? (fun h => (getProp outputData h.id).isNone) ≠ none)) :
    ∃ fmsg,
      loadCache g (fuel + 1) st nodeID =
        .ok (.error inputData "Error in node implementation")
          { store := st1.store,
            pipeCache := setProp st1.pipeCache nodeID
              (.error inputData "Error in node implementation"),
            calls := st1.calls ++ [nodeID],
            log := st1.log ++ [fmsg] } ∧
      (mapper (derefBundle st1.store inputData) = .error fmsg ∨
        ∃ handle : HandleInfo,
          fmsg = "Missing output data for node " ++ nodeID ++ " handle " ++ handle.id) := by
  have hstep := loadCache_step g fuel st nodeID node st1 inputData hmiss hnode hb
  rcases hfault with ⟨msg, hmap⟩ | ⟨outputData, hmap, hfind⟩
  · have hev : evalNode nodeID node inputData st1 =
        (.error inputData "Error in node implementation",
         { store := st1.store, pipeCache := st1.pipeCache,
           calls := st1.calls ++ [nodeID], log := st1.log ++ [msg] }) := by
      simp [evalNode, hready, hsat, hmap]
    exact ⟨msg, hstep.trans (by rw [hev]), Or.inl hmap⟩
  · obtain ⟨handle, hfs⟩ := Option.ne_none_iff_exists'.mp hfind
    have hev : evalNode nodeID node inputData st1 =
        (.error inputData "Error in node implementation",
         { store := st1.store, pipeCache := st1.pipeCache,
           calls := st1.calls ++ [nodeID],
           log := st1.log ++
             ["Missing output data for node " ++ nodeID ++ " handle " ++ handle.id] }) := by
      simp [evalNode, hready, hsat, hmap, hfs]
    exact ⟨"Missing output data for node " ++ nodeID ++ " handle " ++ handle.id,
      hstep.trans (by rw [hev]), Or.inr ⟨handle, rfl⟩⟩

/-- Test fixture for C3: one `Ready` node with no inputs whose transform
always raises a fault. -/
def gC3 : Graph := {
  nodes := [("A", { pipeValue := .ok (fun _ => .error "boom"),
                    handles := { source := [{ id := "out", label := "Out" }], target := [] } })],
  edges := []
}

/-- Witness for C3: the raised fault "boom" is generalized to the fixed
error string and logged. -/
theorem implementation_fault_witness :
    ∃ fmsg,
      loadCache gC3 (0 + 1) initialEvalState "A" =
        .ok (.error [] "Error in node implementation")
          { store := initialEvalState.store,
            pipeCache := setProp initialEvalState.pipeCache "A"
              (.error [] "Error in node implementation"),
            calls := initialEvalState.calls ++ ["A"],
            log := initialEvalState.log ++ [fmsg] } ∧
      ((fun _ => Except.error "boom" : PipeMapper)
          (derefBundle initialEvalState.store []) = .error fmsg ∨
        ∃ handle : HandleInfo,
          fmsg = "Missing output data for node " ++ "A" ++ " handle " ++ handle.id) :=
  implementation_fault gC3 0 initialEvalState initialEvalState "A"
    { pipeValue := .ok (fun _ => .error "boom"),
      handles := { source := [{ id := "out", label := "Out" }], target := [] } }
    (fun _ => .error "boom") []
    (by rfl) (by rfl) rfl (by rfl) (by rfl) (Or.inl ⟨"boom", rfl⟩)

/-- C5 — Optional input absence: a `Ready` node all of whose unmet input
ports are optional (the missing-input check fails) has its transform
invoked on the built input bundle as-is (the optional ports simply have no
entry), and on success the node resolves to `Computed`. -/
theorem optional_input_absence (g : Graph) (fuel : Nat) (st st1 : EvalState)
    (nodeID : String) (node : NodeData) (mapper : PipeMapper) (inputData : BundleR)
    (outputData : Bundle)
    (hmiss : getProp st.pipeCache nodeID = none)
    (hnode : getProp g.nodes nodeID = some node)
    (hready : node.pipeValue = .ok mapper)
    (hb : buildInput (loadCache g fuel) g.edges nodeID st [] = .ok st1 inputData)
    (hsat : missingInput st1.store node.handles.target inputData = false)
    (hmap : mapper (derefBundle st1.store inputData) = .ok outputData)
    (hcomplete : node.handles.source.find?
      (fun h => (getProp outputData h.id).isNone) = none) :
    loadCache g (fuel + 1) st nodeID =
      .ok (.output inputData (allocBundle st1.store outputData).1)
        { store := (allocBundle st1.store outputData).2,
          pipeCache := setProp st1.pipeCache nodeID
            (.output inputData (allocBundle st1.store outputData).1),
          calls := st1.calls ++ [nodeID],
          log := st1.log } := by
  have hstep := loadCache_step g fuel st nodeID node st1 inputData hmiss hnode hb
  have hev : evalNode nodeID node inputData st1 =
      (.output inputData (allocBundle st1.store outputData).1,
       { store := (allocBundle st1.store outputData).2, pipeCache := st1.pipeCache,
         calls := st1.calls ++ [nodeID], log := st1.log }) := by
    simp [evalNode, hready, hsat, hmap, hcomplete]
  exact hstep.trans (by rw [hev])

/-- Test fixture for C5: one `Ready` node whose only input port is optional
and unconnected. -/
def gC5 : Graph := {
  nodes := [("A", { pipeValue := .ok (fun _ => .ok [("out", ["v"])]),
                    handles := { source := [{ id := "out", label := "Out" }],
                                 target := [{ id := "opt-in", label := "In",
                                              optional := true }] } })],
  edges := []
}

/-- Witness for C5: the transform runs with the optional port absent from
its input and the node resolves to `Computed`. -/
theorem optional_input_absence_witness :
    loadCache gC5 (0 + 1) initialEvalState "A" =
      .ok (.output [] (allocBundle initialEvalState.store [("out", ["v"])]).1)
        { store := (allocBundle initialEvalState.store [("out", ["v"])]).2,
          pipeCache := setProp initialEvalState.pipeCache "A"
            (.output [] (allocBundle initialEvalState.store [("out", ["v"])]).1),
          calls := initialEvalState.calls ++ ["A"],
          log := initialEvalState.log } :=
  optional_input_absence gC5 0 initialEvalState initialEvalState "A"
    { pipeValue := .ok (fun _ => .ok [("out", ["v"])]),
      handles := { source := [{ id := "out", label := "Out" }],
                   target := [{ id := "opt-in", label := "In", optional := true }] } }
    (fun _ => .ok [("out", ["v"])]) [] [("out", ["v"])]
    (by rfl) (by rfl) rfl (by rfl) (by rfl) rfl (by rfl)

/-- C9 — Edge rejection: `onConnect` drops self-edges and exact duplicates,
leaving both the edge set and the cache validity flag unchanged. -/
theorem edge_rejection (newEdge : Edge) (edges : List Edge) (cacheValid : Bool)
    (h : newEdge.source = newEdge.target ∨ isDuplicateEdge edges newEdge = true) :
    onConnect newEdge edges cacheValid = (edges, cacheValid) := by
  rcases h with h | h
  · simp [onConnect, h]
  · by_cases hself : newEdge.source = newEdge.target
    · simp [onConnect, hself]
    · simp [onConnect, hself, h]

/-- Witness for C9: a self-edge and an exact duplicate are both rejected
without touching the edge list or the validity flag. -/
theorem edge_rejection_witness :
    onConnect ⟨"X", "a", "X", "b"⟩ [] true = ([], true) ∧
    onConnect ⟨"X", "a", "Y", "b"⟩ [⟨"X", "a", "Y", "b"⟩] false =
      ([⟨"X", "a", "Y", "b"⟩], false) :=
  ⟨edge_rejection ⟨"X", "a", "X", "b"⟩ [] true (Or.inl rfl),
   edge_rejection ⟨"X", "a", "Y", "b"⟩ [⟨"X", "a", "Y", "b"⟩] false (Or.inr (by decide))⟩

/-- C10 — `mapMessage` is structure-preserving: it keeps `fromNode` and
`kind`, maps the value of an `Ok` message through `f`, and rebuilds
`BadConfig` and `Err` messages unchanged. -/
theorem mapMessage_structure {T U : Type} (m : PipeMessage T) (f : T → U) :
    (mapMessage m f).fromNode = m.fromNode ∧
    (mapMessage m f).kind = m.kind ∧
    (∀ fr v, m = .okMessage fr v → mapMessage m f = .okMessage fr (f v)) ∧
    (∀ fr, m = .badConfigMessage fr → mapMessage m f = .badConfigMessage fr) ∧
    (∀ fr e, m = .errMessage fr e → mapMessage m f = .errMessage fr e) := by
  cases m <;>
    simp [mapMessage, PipeMessage.fromNode, PipeMessage.kind]

/-- Witness for C10 on a concrete `Ok` message. -/
theorem mapMessage_structure_witness :
    (mapMessage (PipeMessage.okMessage "n1" 3) (fun x : Nat => x + 1)).fromNode =
      (PipeMessage.okMessage "n1" 3).fromNode ∧
    mapMessage (PipeMessage.okMessage "n1" 3) (fun x : Nat => x + 1) =
      .okMessage "n1" 4 :=
  ⟨(mapMessage_structure (PipeMessage.okMessage "n1" 3) (fun x : Nat => x + 1)).1,
   (mapMessage_structure (PipeMessage.okMessage "n1" 3) (fun x : Nat => x + 1)).2.2.1 "n1" 3 rfl⟩

/-- Test fixture for C7: node `B` with an inbound edge whose source node id
`X` does not exist in the node set (a dangling edge). -/
def gC7 : Graph := {
  nodes := [("B", { pipeValue := .badConfig,
                    handles := { source := [], target := [{ id := "in", label := "In" }] } })],
  edges := [{ source := "X", sourceHandle := "o", target := "B", targetHandle := "in" }]
}

/-- C7 code-bug evidence: resolving the target of a dangling edge does not
complete; the recursive `loadCache(edge.source)` reads
`nodes[edge.source].data` of `undefined` and raises a `TypeError` instead of
defensively ignoring the edge as the specification requires. -/
theorem dangling_edge_fault :
    loadCache gC7 2 initialEvalState "B" = .typeError initialEvalState := by
  rfl

/-- Test fixture for C8 and C4: two computed sources `A` and `B` feeding the
same target port `p` of node `n`. -/
def gC8 : Graph := {
  nodes := [
    ("A", { pipeValue := .ok (fun _ => .ok [("o", ["a"])]),
            handles := { source := [{ id := "o", label := "O" }], target := [] } }),
    ("B", { pipeValue := .ok (fun _ => .ok [("o", ["b"])]),
            handles := { source := [{ id := "o", label := "O" }], target := [] } }),
    ("n", { pipeValue := .ok (fun _ => .ok [("out", [])]),
            handles := { source := [{ id := "out", label := "Out" }],
                         target := [{ id := "p", label := "P" }] } })],
  edges := [
    { source := "A", sourceHandle := "o", target := "n", targetHandle := "p" },
    { source := "B", sourceHandle := "o", target := "n", targetHandle := "p" }]
}

/-- C8 code-bug evidence: after `A` is resolved its stored Cache Entry's
output at port `o` holds `["a"]`; resolving the downstream node `n` (which
aggregates two edges into one target port) pushes `B`'s values into the
array aliased by `A`'s cached output, so `A`'s stored entry now reads
`["a", "b"]` — the stored Cache Entry of another node changed by value. -/
theorem cached_entry_mutation :
    loadCache gC8 2 initialEvalState "A" =
      .ok (.output [] [("o", 0)])
        ⟨⟨[["a"]]⟩, [("A", .output [] [("o", 0)])], ["A"], []⟩ ∧
    derefBundle (⟨[["a"]]⟩ : Store) [("o", 0)] = [("o", ["a"])] ∧
    loadCache gC8 2 (⟨⟨[["a"]]⟩, [("A", .output [] [("o", 0)])], ["A"], []⟩ : EvalState) "n" =
      .ok (.output [("p", 0)] [("out", 2)])
        ⟨⟨[["a", "b"], ["b"], []]⟩,
         [("A", .output [] [("o", 0)]), ("B", .output [] [("o", 1)]),
          ("n", .output [("p", 0)] [("out", 2)])],
         ["A", "B", "n"], []⟩ ∧
    derefBundle (⟨[["a", "b"], ["b"], []]⟩ : Store) [("o", 0)] = [("o", ["a", "b"])] :=
  ⟨rfl, rfl, rfl, rfl⟩

/-- Test fixture for C4: like `gC8`, plus a third edge reading `A`'s output
port `o` into a second target port `q` of `n`. -/
def gC4 : Graph := {
  nodes := [
    ("A", { pipeValue := .ok (fun _ => .ok [("o", ["a"])]),
            handles := { source := [{ id := "o", label := "O" }], target := [] } }),
    ("B", { pipeValue := .ok (fun _ => .ok [("o", ["b"])]),
            handles := { source := [{ id := "o", label := "O" }], target := [] } }),
    ("n", { pipeValue := .ok (fun _ => .ok [("out", [])]),
            handles := { source := [{ id := "out", label := "Out" }],
                         target := [{ id := "p", label := "P" },
                                    { id := "q", label := "Q" }] } })],
  edges := [
    { source := "A", sourceHandle := "o", target := "n", targetHandle := "p" },
    { source := "B", sourceHandle := "o", target := "n", targetHandle := "p" },
    { source := "A", sourceHandle := "o", target := "n", targetHandle := "q" }]
}

/-- C4 code-bug evidence: `A`'s computed output at port `o` is `["a"]`
(first conjunct, resolving `A` alone), and the only edge into `(n, q)`
comes from `A.o`, so per the claim `n`'s input at `q` must be `["a"]`; but
resolving `n` yields an input bundle whose `q` entry dereferences to
`["a", "b"]`, because the aggregation into port `p` pushed `B`'s values
into the array aliased from `A`'s cached output before `q` read it. -/
theorem input_bundle_aliasing :
    loadCache gC4 2 initialEvalState "A" =
      .ok (.output [] [("o", 0)])
        ⟨⟨[["a"]]⟩, [("A", .output [] [("o", 0)])], ["A"], []⟩ ∧
    derefBundle (⟨[["a"]]⟩ : Store) [("o", 0)] = [("o", ["a"])] ∧
    loadCache gC4 2 initialEvalState "n" =
      .ok (.output [("p", 0), ("q", 0)] [("out", 2)])
        ⟨⟨[["a", "b"], ["b"], []]⟩,
         [("A", .output [] [("o", 0)]), ("B", .output [] [("o", 1)]),
          ("n", .output [("p", 0), ("q", 0)] [("out", 2)])],
         ["A", "B", "n"], []⟩ ∧
    derefBundle (⟨[["a", "b"], ["b"], []]⟩ : Store) [("p", 0), ("q", 0)] =
      [("p", ["a", "b"]), ("q", ["a", "b"])] :=
  ⟨rfl, rfl, rfl, rfl⟩

end Datapipe
